import Mathlib

/-!
# Verification of the DMG emulator core

Shallow embedding of the emulator's memory bus (`memory.rs`), cartridge bank
controller (`mbc.rs`), timer (`timer.rs`) and the CPU state / interrupt
dispatcher (`runtime.rs`), together with proofs of the testable properties
stated about them.

Machine integers are modelled as `Nat`; a value of Rust type `u8` is a `Nat`
kept below 256 by the operations themselves (an explicit `% 256` appears
exactly where the Rust code truncates: `as u8` casts, `wrapping_add`, and
shifts of a `u8`).  `Vec<u8>` buffers are modelled as total functions
`Nat → Nat` indexed exactly as the source indexes the vector.
-/

namespace Gbc

variable {ρ : Type}

/-! ## `byteop.rs` — bit utilities -/

/-- `join_u8(h, l)`: `((h as u16) << 8) + l as u16`. -/
def join_u8 (h l : Nat) : Nat := (h <<< 8) + l

/-- `split_u16(hl)`: returns `(h, l)`; the `as u8` casts are the `% 256` /
`&&& 0xFF` truncations. -/
def split_u16 (hl : Nat) : Nat × Nat := ((hl >>> 8) % 256, hl &&& 0xFF)

/-- `get_bit(reg, pos)`: `(reg & (1 << pos)) >> pos`. -/
def get_bit (reg : Nat) (pos : Nat) : Nat := (reg &&& (1 <<< pos)) >>> pos

/-- `set_bit(reg, pos, val)`: `reg | mask` or `reg & !mask`; the `u8`
complement `!mask` of the one-bit mask is `0xFF - mask`. -/
def set_bit (reg : Nat) (pos : Nat) (val : Bool) : Nat :=
  let mask := 1 <<< pos
  if val then reg ||| mask else reg &&& (0xFF - mask)

theorem get_bit_eq_testBit (reg pos : Nat) :
    get_bit reg pos = (Nat.testBit reg pos).toNat := by
  unfold get_bit
  rw [Nat.shiftLeft_eq, one_mul, Nat.and_two_pow, Nat.shiftRight_eq_div_pow]
  exact Nat.mul_div_cancel _ (Nat.pos_pow_of_pos pos (by norm_num))

theorem set_bit_testBit_self (reg pos : Nat) (b : Bool) (hpos : pos < 8) :
    Nat.testBit (set_bit reg pos b) pos = b := by
  unfold set_bit
  rcases b with _ | _ <;> simp only [if_true, if_false, Bool.false_eq_true]
  · rw [Nat.testBit_land]
    have : (0xFF - 1 <<< pos).testBit pos = false := by
      rw [Nat.shiftLeft_eq, one_mul]
      interval_cases pos <;> decide
    simp [this]
  · simp [Nat.testBit_lor, Nat.shiftLeft_eq, Nat.testBit_two_pow_self]

theorem set_bit_testBit_other (reg pos j : Nat) (b : Bool) (hpos : pos < 8)
    (hj : j < 8) (hne : j ≠ pos) :
    Nat.testBit (set_bit reg pos b) j = Nat.testBit reg j := by
  unfold set_bit
  rcases b with _ | _ <;> simp only [if_true, if_false, Bool.false_eq_true]
  · rw [Nat.testBit_land]
    have : (0xFF - 1 <<< pos).testBit j = true := by
      rw [Nat.shiftLeft_eq, one_mul]
      interval_cases pos <;> interval_cases j <;> revert hne <;> decide
    simp [this]
  · rw [Nat.testBit_lor]
    have : (1 <<< pos).testBit j = false := by
      rw [Nat.shiftLeft_eq, one_mul, Nat.testBit_two_pow]
      simp [Ne.symm hne]
    simp [this]

/-! ## `mbc.rs` — cartridge bank controllers

The Rust trait `Rom` (a capability `{get(addr), set(addr, val)}` behind which
the bank controller sits) is modelled as a record of operations over an
abstract state type `ρ`. -/

structure RomOps (ρ : Type) where
  get : ρ → Nat → Nat
  set : ρ → Nat → Nat → ρ

/-- `RomNoMBC`: raw ROM bytes, writes ignored. -/
structure RomNoMBC where
  rom : Nat → Nat

def RomNoMBC.get (r : RomNoMBC) (addr : Nat) : Nat := r.rom addr

def RomNoMBC.set (r : RomNoMBC) (_addr _val : Nat) : RomNoMBC := r

def romNoMBCOps : RomOps RomNoMBC where
  get := RomNoMBC.get
  set := RomNoMBC.set

/-- `RomMBC3`: ROM bank register, external-RAM enable, RAM-bank/RTC selector
and 4 × 8 KiB RAM (one flat buffer, as in the source). -/
structure RomMBC3 where
  rom : Nat → Nat
  rom_bank : Nat
  exram_enable : Bool
  bank_or_rtc : Nat
  ram : Nat → Nat

/-- `RomMBC3::set` (the `match addr` arms, in source order).  The
`flush()` to `file.sav` is an I/O side effect with no bearing on the
in-memory state and is not modelled. -/
def RomMBC3.set (r : RomMBC3) (addr val : Nat) : RomMBC3 :=
  if addr ≤ 0x1FFF then
    { r with exram_enable := val &&& 0xA == 0xA }
  else if addr ≤ 0x3FFF then
    let bank := val &&& 0x7F
    { r with rom_bank := if bank = 0 then 1 else bank }
  else if addr ≤ 0x5FFF then
    { r with bank_or_rtc := val }
  else if addr ≤ 0x7FFF then
    r
  else if 0xA000 ≤ addr ∧ addr ≤ 0xBFFF then
    if r.bank_or_rtc ≤ 3 then
      { r with ram := fun i =>
          if i = (addr - 0xA000) + r.bank_or_rtc * 0x2000 then val else r.ram i }
    else r
  else r

/-- `RomMBC3::get`.  The final `panic!("not implemented")` arm is
unreachable through the memory bus (which only routes mapped cartridge
addresses here) and is modelled as 0. -/
def RomMBC3.get (r : RomMBC3) (addr : Nat) : Nat :=
  if addr ≤ 0x3FFF then r.rom addr
  else if addr ≤ 0x7FFF then r.rom (addr - 0x4000 + 0x4000 * r.rom_bank)
  else if 0xA000 ≤ addr ∧ addr ≤ 0xBFFF then
    if r.bank_or_rtc ≤ 3 then r.ram ((addr - 0xA000) + r.bank_or_rtc * 0x2000)
    else 0
  else 0

def mbc3Ops : RomOps RomMBC3 where
  get := RomMBC3.get
  set := RomMBC3.set

/-- Apply a sequence of `RomMBC3::set` control writes in order. -/
def RomMBC3.applyWrites (r : RomMBC3) (ws : List (Nat × Nat)) : RomMBC3 :=
  ws.foldl (fun acc w => acc.set w.1 w.2) r

theorem RomMBC3.set_preserves_rom (r : RomMBC3) (addr val : Nat) :
    (r.set addr val).rom = r.rom := by
  unfold RomMBC3.set
  split <;> try rfl
  split <;> try rfl
  split <;> try rfl
  split <;> try rfl
  split <;> first | rfl | (split <;> rfl)

theorem RomMBC3.set_preserves_rom_bank (r : RomMBC3) (addr val : Nat)
    (h : ¬(0x2000 ≤ addr ∧ addr ≤ 0x3FFF)) :
    (r.set addr val).rom_bank = r.rom_bank := by
  unfold RomMBC3.set
  rcases le_or_lt addr 0x1FFF with h1 | h1
  · rw [if_pos h1]
  · rw [if_neg (by omega), if_neg (by omega)]
    split <;> try rfl
    split <;> try rfl
    split <;> first | rfl | (split <;> rfl)

theorem RomMBC3.applyWrites_preserves (r : RomMBC3) (ws : List (Nat × Nat))
    (h : ∀ w ∈ ws, ¬(0x2000 ≤ w.1 ∧ w.1 ≤ 0x3FFF)) :
    (r.applyWrites ws).rom_bank = r.rom_bank ∧ (r.applyWrites ws).rom = r.rom := by
  induction ws generalizing r with
  | nil => exact ⟨rfl, rfl⟩
  | cons w ws ih =>
    have hw := h w (List.mem_cons_self w ws)
    have hrest := fun x hx => h x (List.mem_cons_of_mem w hx)
    simp only [RomMBC3.applyWrites, List.foldl_cons] at *
    rcases ih (r.set w.1 w.2) hrest with ⟨hb, hr⟩
    exact ⟨hb.trans (RomMBC3.set_preserves_rom_bank r w.1 w.2 hw),
           hr.trans (RomMBC3.set_preserves_rom r w.1 w.2)⟩

theorem RomMBC3.set_rom_bank_select (r : RomMBC3) (a0 v : Nat)
    (ha0 : 0x2000 ≤ a0 ∧ a0 ≤ 0x3FFF) :
    (r.set a0 v).rom_bank = Nat.max (v &&& 0x7F) 1 := by
  unfold RomMBC3.set
  rw [if_neg (by omega), if_pos (by omega)]
  show (if v &&& 0x7F = 0 then 1 else v &&& 0x7F) = _
  rcases Nat.eq_zero_or_pos (v &&& 0x7F) with h0 | h0
  · simp [h0]
  · rw [if_neg (by omega)]
    exact (Nat.max_eq_left h0).symm

/-- **C6.** For an MBC3 cartridge, after a write of `v` to any address in
`0x2000`–`0x3FFF`, every read from an address `a` in `0x4000`–`0x7FFF`
returns the ROM byte at `(a - 0x4000) + 0x4000 * max(v & 0x7F, 1)`, for any
interleaving of further MBC3 control writes that avoid `0x2000`–`0x3FFF`. -/
theorem mbc3_bank_select_spec (r : RomMBC3) (a0 v : Nat) (ws : List (Nat × Nat))
    (a : Nat)
    (ha0 : 0x2000 ≤ a0 ∧ a0 ≤ 0x3FFF)
    (hws : ∀ w ∈ ws, ¬(0x2000 ≤ w.1 ∧ w.1 ≤ 0x3FFF))
    (ha : 0x4000 ≤ a ∧ a ≤ 0x7FFF) :
    ((r.set a0 v).applyWrites ws).get a
      = r.rom ((a - 0x4000) + 0x4000 * Nat.max (v &&& 0x7F) 1) := by
  obtain ⟨hb, hr⟩ := RomMBC3.applyWrites_preserves (r.set a0 v) ws hws
  unfold RomMBC3.get
  rw [if_neg (by omega), if_pos (by omega), hr, RomMBC3.set_preserves_rom, hb,
    RomMBC3.set_rom_bank_select r a0 v ha0]

/-- A concrete MBC3 cartridge state used to instantiate theorems. -/
def mbc3w : RomMBC3 :=
  { rom := fun a => a % 251
    rom_bank := 1
    exram_enable := false
    bank_or_rtc := 0
    ram := fun _ => 0 }

/-- Witness for `mbc3_bank_select_spec` at a concrete cartridge state. -/
theorem mbc3_bank_select_spec_witness :
    (0x2000 ≤ 0x2000 ∧ (0x2000 : Nat) ≤ 0x3FFF) ∧
    (∀ w ∈ [((0x4000 : Nat), (2 : Nat)), (0x0000, 0xA), (0xA000, 0x55)],
      ¬(0x2000 ≤ w.1 ∧ w.1 ≤ 0x3FFF)) ∧
    (0x4000 ≤ 0x4123 ∧ (0x4123 : Nat) ≤ 0x7FFF) ∧
    ((mbc3w.set 0x2000 0x85).applyWrites
        [(0x4000, 2), (0x0000, 0xA), (0xA000, 0x55)]).get 0x4123
      = mbc3w.rom ((0x4123 - 0x4000) + 0x4000 * Nat.max (0x85 &&& 0x7F) 1) :=
  ⟨by decide, by decide, by norm_num,
    mbc3_bank_select_spec mbc3w 0x2000 0x85 _ 0x4123 (by norm_num) (by decide)
      (by norm_num)⟩

/-! ## `memory.rs` — the memory bus

`MMU` owns the boot ROM, the cartridge (abstract state `ρ` behind a
`RomOps ρ` capability, matching the `&mut dyn Rom` field), video RAM, the
work-RAM buffer `wram` (which in the source backs everything from `0xA000`
upward, indexed by `addr - 0xA000`), the cartridge-type byte and the joypad
input vector. -/

structure MMU (ρ : Type) where
  boot_rom : Nat → Nat
  rom : ρ
  vram : Nat → Nat
  wram : Nat → Nat
  hwcfg : Nat
  inputs : Nat

/-- `get_inputs(mask, inputs)`. -/
def get_inputs (mask inputs : Nat) : Nat :=
  let upper := (mask &&& 0x30) + 0x60
  let lower :=
    if get_bit upper 4 = 0 then inputs &&& 0b1111
    else if get_bit upper 5 = 0 then inputs >>> 4
    else 0xF
  upper + lower

/-- `MMU::boot_rom_disabled`: `self.get(0xFF50) == 1`.  The `get` of
`0xFF50` always resolves to the `0xC000..=0xFFFF` arm, i.e. to
`wram[0xFF50 - 0xA000]`; the definition is unfolded here so that `get` is
not mutually recursive with it (`mmu_get_ff50` below re-establishes the
source's phrasing). -/
def MMU.boot_rom_disabled (m : MMU ρ) : Bool :=
  m.wram (0xFF50 - 0xA000) == 1

/-- `MMU::get` (the `match addr` arms, in source order).  The
out-of-bounds `panic!` arm is unreachable for 16-bit addresses and is
modelled as 0. -/
def MMU.get (R : RomOps ρ) (m : MMU ρ) (addr : Nat) : Nat :=
  if addr ≤ 0x00FF then
    if m.boot_rom_disabled then R.get m.rom addr else m.boot_rom addr
  else if addr ≤ 0x3FFF then R.get m.rom addr
  else if addr ≤ 0x7FFF then R.get m.rom addr
  else if addr ≤ 0x9FFF then m.vram (addr - 0x8000)
  else if 0xE000 ≤ addr ∧ addr ≤ 0xFDFF then m.wram (addr - 0xA000 - 0x2000)
  else if addr = 0xFF00 then get_inputs (m.wram (addr - 0xA000)) m.inputs
  else if 0xA000 ≤ addr ∧ addr ≤ 0xBFFF then R.get m.rom addr
  else if 0xC000 ≤ addr ∧ addr ≤ 0xFFFF then m.wram (addr - 0xA000)
  else 0

theorem mmu_get_ff50 (R : RomOps ρ) (m : MMU ρ) :
    m.boot_rom_disabled = (MMU.get R m 0xFF50 == 1) := rfl

/-- `MMU::hwset`: stores to the `wram` backing for `0xFF26` and `0xFF04`;
every other address is a `panic!` in the source (no caller reaches it) and
is modelled as the identity. -/
def MMU.hwset (m : MMU ρ) (addr val : Nat) : MMU ρ :=
  if addr = 0xFF26 then
    { m with wram := fun i => if i = addr - 0xA000 then val else m.wram i }
  else if addr = 0xFF04 then
    { m with wram := fun i => if i = addr - 0xA000 then val else m.wram i }
  else m

/-- `MMU::dma(addr)`: copy `0xA0` bytes from `addr << 8` to
`0xFE00`–`0xFE9F`.  The destination addresses all land in the
`0xC000..=0xFFFF` arm of `MMU::set`, i.e. in `wram[dest - 0xA000]`, which is
written directly here (`set` would otherwise be mutually recursive with
`dma`). -/
def MMU.dma (R : RomOps ρ) (m : MMU ρ) (addr : Nat) : MMU ρ :=
  let source := addr <<< 8
  (List.range 0xA0).foldl
    (fun acc i =>
      let byte := MMU.get R acc (source + i)
      { acc with wram := fun j =>
          if j = (0xFE00 + i) - 0xA000 then byte else acc.wram j })
    m

/-- `MMU::set` (the `match addr` arms, in source order).  The final `_`
arm is a suppressed write (commented-out `panic!`), i.e. the identity. -/
def MMU.set (R : RomOps ρ) (m : MMU ρ) (addr val : Nat) : MMU ρ :=
  if addr ≤ 0x7FFF then { m with rom := R.set m.rom addr val }
  else if addr ≤ 0x9FFF then
    { m with vram := fun i => if i = addr - 0x8000 then val else m.vram i }
  else if 0xE000 ≤ addr ∧ addr ≤ 0xFDFF then
    { m with wram := fun i =>
        if i = addr - 0xA000 - 0x2000 then val else m.wram i }
  else if addr = 0xFF00 then
    let read_mask := (val &&& 0x30) + 0x60
    { m with wram := fun i => if i = addr - 0xA000 then read_mask else m.wram i }
  else if addr = 0xFF26 then
    let current_value := MMU.get R m 0xFF26
    let new_value := set_bit current_value 7 (get_bit val 7 == 1)
    MMU.hwset m addr new_value
  else if addr = 0xFF04 then MMU.hwset m addr 0
  else if addr = 0xFF46 then MMU.dma R m val
  else if 0xA000 ≤ addr ∧ addr ≤ 0xBFFF then { m with rom := R.set m.rom addr val }
  else if 0xC000 ≤ addr ∧ addr ≤ 0xFFFF then
    { m with wram := fun i => if i = addr - 0xA000 then val else m.wram i }
  else m

/-! ### Access lemmas: where the `match` arms land -/

/-- Reads above the echo mirror (apart from the joypad port) land in the
`wram` backing.  The hypothesis bundles the conditions routing `a` to the
`0xC000..=0xFFFF` arm of `MMU::get`. -/
theorem MMU.get_wram (R : RomOps ρ) (m : MMU ρ) (a : Nat)
    (h : 0xC000 ≤ a ∧ a ≤ 0xFFFF ∧ ¬ a ≤ 0xFDFF ∧ a ≠ 0xFF00) :
    MMU.get R m a = m.wram (a - 0xA000) := by
  obtain ⟨h1, h2, h3, h4⟩ := h
  unfold MMU.get
  split_ifs <;> first | omega | rfl

theorem MMU.get_wram_low (R : RomOps ρ) (m : MMU ρ) (a : Nat)
    (h1 : 0xC000 ≤ a) (h2 : a ≤ 0xDFFF) :
    MMU.get R m a = m.wram (a - 0xA000) := by
  unfold MMU.get
  split_ifs <;> first | omega | rfl

theorem MMU.get_echo (R : RomOps ρ) (m : MMU ρ) (a : Nat)
    (h1 : 0xE000 ≤ a) (h2 : a ≤ 0xFDFF) :
    MMU.get R m a = m.wram (a - 0xA000 - 0x2000) := by
  unfold MMU.get
  split_ifs <;> first | omega | rfl

/-- Stores above the echo mirror which hit none of the special registers
land in the `wram` backing.  The hypothesis bundles the conditions routing
`a` to the `0xC000..=0xFFFF` arm of `MMU::set`. -/
theorem MMU.set_wram (R : RomOps ρ) (m : MMU ρ) (a v : Nat)
    (h : 0xC000 ≤ a ∧ a ≤ 0xFFFF ∧ ¬(0xE000 ≤ a ∧ a ≤ 0xFDFF) ∧ a ≠ 0xFF00 ∧
      a ≠ 0xFF26 ∧ a ≠ 0xFF04 ∧ a ≠ 0xFF46) :
    MMU.set R m a v
      = { m with wram := fun i => if i = a - 0xA000 then v else m.wram i } := by
  obtain ⟨h1, h2, h3, h4, h5, h6, h7⟩ := h
  unfold MMU.set
  split_ifs <;> first | omega | rfl

theorem MMU.set_echo (R : RomOps ρ) (m : MMU ρ) (a v : Nat)
    (h1 : 0xE000 ≤ a) (h2 : a ≤ 0xFDFF) :
    MMU.set R m a v
      = { m with wram := fun i =>
            if i = a - 0xA000 - 0x2000 then v else m.wram i } := by
  unfold MMU.set
  rw [if_neg (by omega), if_neg (by omega), if_pos (by omega)]

/-- A concrete memory-bus state (no-MBC cartridge) used to instantiate
theorems. -/
def mmuW : MMU RomNoMBC :=
  { boot_rom := fun _ => 0xAB
    rom := { rom := fun a => a % 251 }
    vram := fun _ => 0
    wram := fun _ => 0
    hwcfg := 0
    inputs := 0xFF }

/-! ### C3 — DIV reset -/

/-- **C3.** A program write `set(0xFF04, v)` stores 0 into DIV regardless of
`v`: the subsequent `get(0xFF04)` returns 0. -/
theorem div_write_stores_zero (R : RomOps ρ) (m : MMU ρ) (v : Nat) :
    MMU.get R (MMU.set R m 0xFF04 v) 0xFF04 = 0 := by
  have hset : MMU.set R m 0xFF04 v = MMU.hwset m 0xFF04 0 := by
    unfold MMU.set
    rw [if_neg (by norm_num), if_neg (by decide), if_neg (by omega),
      if_neg (by norm_num), if_neg (by decide), if_pos rfl]
  rw [hset, MMU.get_wram R _ 0xFF04 (by omega)]
  unfold MMU.hwset
  rw [if_neg (by omega), if_pos rfl]
  simp

/-! ### C7 — echo RAM aliasing -/

/-- **C7.** The echo region `0xE000`–`0xFDFF` is a bidirectional alias of
work RAM: reads agree with `a - 0x2000`, and a write through either address
is visible through the other. -/
theorem echo_ram_alias (R : RomOps ρ) (m : MMU ρ) (a v : Nat)
    (h1 : 0xE000 ≤ a) (h2 : a ≤ 0xFDFF) :
    MMU.get R m a = MMU.get R m (a - 0x2000) ∧
    MMU.get R (MMU.set R m a v) (a - 0x2000) = v ∧
    MMU.get R (MMU.set R m (a - 0x2000) v) a = v := by
  refine ⟨?_, ?_, ?_⟩
  · have e : a - 0xA000 - 0x2000 = a - 0x2000 - 0xA000 := by omega
    rw [MMU.get_echo R m a h1 h2,
      MMU.get_wram_low R m (a - 0x2000) (by omega) (by omega), e]
  · rw [MMU.set_echo R m a v h1 h2,
      MMU.get_wram_low R _ (a - 0x2000) (by omega) (by omega)]
    have e : a - 0x2000 - 0xA000 = a - 0xA000 - 0x2000 := by omega
    simp [e]
  · rw [MMU.set_wram R m (a - 0x2000) v (by omega),
      MMU.get_echo R _ a h1 h2]
    have e : a - 0xA000 - 0x2000 = a - 0x2000 - 0xA000 := by omega
    simp [e]

/-- Witness for `echo_ram_alias` at a concrete state and address. -/
theorem echo_ram_alias_witness :
    (0xE000 ≤ 0xE123 ∧ (0xE123 : Nat) ≤ 0xFDFF) ∧
    (MMU.get romNoMBCOps mmuW 0xE123 = MMU.get romNoMBCOps mmuW (0xE123 - 0x2000) ∧
     MMU.get romNoMBCOps (MMU.set romNoMBCOps mmuW 0xE123 0x42) (0xE123 - 0x2000) = 0x42 ∧
     MMU.get romNoMBCOps (MMU.set romNoMBCOps mmuW (0xE123 - 0x2000) 0x42) 0xE123 = 0x42) :=
  ⟨by decide,
    echo_ram_alias romNoMBCOps mmuW 0xE123 0x42 (by norm_num) (by norm_num)⟩

/-! ### C8 — NR52 program writes -/

theorem get_bit_beq_one (v p : Nat) : (get_bit v p == 1) = Nat.testBit v p := by
  rw [get_bit_eq_testBit]
  cases Nat.testBit v p <;> rfl

/-- **C8.** A program write `set(0xFF26, v)` changes only bit 7 of the
stored NR52 value (to bit 7 of `v`); every other bit — in particular the
APU-owned channel-active flags in bits 0–2 — keeps its prior value. -/
theorem nr52_write_bit7_only (R : RomOps ρ) (m : MMU ρ) (v : Nat) :
    (∀ i, i < 8 → i ≠ 7 →
      Nat.testBit (MMU.get R (MMU.set R m 0xFF26 v) 0xFF26) i
        = Nat.testBit (MMU.get R m 0xFF26) i) ∧
    Nat.testBit (MMU.get R (MMU.set R m 0xFF26 v) 0xFF26) 7
      = Nat.testBit v 7 := by
  have hset : MMU.set R m 0xFF26 v
      = MMU.hwset m 0xFF26 (set_bit (MMU.get R m 0xFF26) 7 (get_bit v 7 == 1)) := by
    unfold MMU.set
    rw [if_neg (by norm_num), if_neg (by decide), if_neg (by omega),
      if_neg (by norm_num), if_pos rfl]
  have hget : MMU.get R (MMU.set R m 0xFF26 v) 0xFF26
      = set_bit (MMU.get R m 0xFF26) 7 (get_bit v 7 == 1) := by
    rw [hset, MMU.get_wram R _ 0xFF26 (by omega)]
    unfold MMU.hwset
    rw [if_pos rfl]
    simp
  constructor
  · intro i hi hne
    rw [hget, set_bit_testBit_other _ 7 i _ (by omega) hi hne]
  · rw [hget, set_bit_testBit_self _ 7 _ (by omega), get_bit_beq_one]

/-- A second concrete bus state, with a nonzero NR52 byte. -/
def mmuW2 : MMU RomNoMBC :=
  { boot_rom := fun _ => 0xAB
    rom := { rom := fun a => a % 251 }
    vram := fun _ => 0
    wram := fun i => if i = 0xFF26 - 0xA000 then 0x05 else 0
    hwcfg := 0
    inputs := 0xFF }

/-- Witness for `nr52_write_bit7_only`: write `0x80` over NR52 = `0x05`. -/
theorem nr52_write_bit7_only_witness :
    ((2 : Nat) < 8 ∧ (2 : Nat) ≠ 7) ∧
    Nat.testBit (MMU.get romNoMBCOps (MMU.set romNoMBCOps mmuW2 0xFF26 0x80) 0xFF26) 2
      = Nat.testBit (MMU.get romNoMBCOps mmuW2 0xFF26) 2 ∧
    Nat.testBit (MMU.get romNoMBCOps (MMU.set romNoMBCOps mmuW2 0xFF26 0x80) 0xFF26) 7
      = Nat.testBit 0x80 7 :=
  ⟨by decide,
    (nr52_write_bit7_only romNoMBCOps mmuW2 0x80).1 2 (by norm_num) (by decide),
    (nr52_write_bit7_only romNoMBCOps mmuW2 0x80).2⟩

/-! ### C4 — boot-ROM overlay -/

/-- A concrete bus state over an MBC3 cartridge whose bank-0 bytes differ
from the boot-ROM bytes. -/
def mmuC4 : MMU RomMBC3 :=
  { boot_rom := fun _ => 0xAB
    rom := mbc3w
    vram := fun _ => 0
    wram := fun _ => 0
    hwcfg := 0x13
    inputs := 0xFF }

/-- **C4 (amended).** Writing 1 to `0xFF50` switches reads of
`0x0000`–`0x00FF` to cartridge bank 0, but the switch is *not* one-way:
a later program write of any value other than 1 to `0xFF50` re-enables the
boot-ROM overlay. -/
theorem boot_overlay_not_one_way (m : MMU RomMBC3) (a v : Nat)
    (ha : a ≤ 0xFF) (hv : v ≠ 1) :
    MMU.get mbc3Ops (MMU.set mbc3Ops m 0xFF50 1) a = m.rom.rom a ∧
    MMU.get mbc3Ops (MMU.set mbc3Ops (MMU.set mbc3Ops m 0xFF50 1) 0xFF50 v) a
      = m.boot_rom a := by
  have hw : ∀ (m' : MMU RomMBC3) (w : Nat), MMU.set mbc3Ops m' 0xFF50 w
      = { m' with wram := fun i => if i = 0xFF50 - 0xA000 then w else m'.wram i } :=
    fun m' w => MMU.set_wram mbc3Ops m' 0xFF50 w (by omega)
  constructor
  · rw [hw]
    unfold MMU.get
    rw [if_pos ha]
    have hdis : ({ m with wram := fun i =>
        if i = 0xFF50 - 0xA000 then 1 else m.wram i } : MMU RomMBC3).boot_rom_disabled
        = true := by
      unfold MMU.boot_rom_disabled
      simp
    rw [hdis, if_pos rfl]
    show RomMBC3.get m.rom a = m.rom.rom a
    unfold RomMBC3.get
    rw [if_pos (by omega)]
  · rw [hw, hw]
    unfold MMU.get
    rw [if_pos ha]
    have hdis : ({ { m with wram := fun i => if i = 0xFF50 - 0xA000 then 1 else m.wram i }
          with wram := fun i => if i = 0xFF50 - 0xA000 then v
            else if i = 0xFF50 - 0xA000 then 1 else m.wram i } : MMU RomMBC3).boot_rom_disabled
        = false := by
      unfold MMU.boot_rom_disabled
      simp [hv]
    rw [hdis]
    simp

/-- Witness for `boot_overlay_not_one_way` at a concrete state. -/
theorem boot_overlay_not_one_way_witness :
    ((0x42 : Nat) ≤ 0xFF ∧ (0 : Nat) ≠ 1) ∧
    MMU.get mbc3Ops (MMU.set mbc3Ops mmuC4 0xFF50 1) 0x42 = mmuC4.rom.rom 0x42 ∧
    MMU.get mbc3Ops (MMU.set mbc3Ops (MMU.set mbc3Ops mmuC4 0xFF50 1) 0xFF50 0) 0x42
      = mmuC4.boot_rom 0x42 :=
  ⟨by decide, boot_overlay_not_one_way mmuC4 0x42 0 (by norm_num) (by decide)⟩

/-- **C4 counterexample.** After `0xFF50 ← 1` and then `0xFF50 ← 0`, a read
of address 0 serves the boot-ROM byte `0xAB` again, not the cartridge
bank-0 byte `0x00`: the overlay is re-enabled, refuting permanence. -/
theorem boot_overlay_reenabled_counterexample :
    MMU.get mbc3Ops (MMU.set mbc3Ops mmuC4 0xFF50 1) 0x0000 = mmuC4.rom.rom 0x0000 ∧
    MMU.get mbc3Ops (MMU.set mbc3Ops (MMU.set mbc3Ops mmuC4 0xFF50 1) 0xFF50 0) 0x0000
      = 0xAB ∧
    mmuC4.rom.rom 0x0000 ≠ 0xAB := by
  refine ⟨?_, ?_, by decide⟩ <;> decide

/-! ## `registers.rs` — symbolic I/O register addresses -/

def registers.DIV : Nat := 0xFF04
def registers.TIMA : Nat := 0xFF05
def registers.TMA : Nat := 0xFF06
def registers.TAC : Nat := 0xFF07
def registers.IE : Nat := 0xFFFF
def registers.IF : Nat := 0xFF0F

/-! ## `timer.rs` — DIV / TIMA counters -/

structure Timer where
  internal_ticks : Nat
  delta_div : Nat

def Timer.new : Timer := { internal_ticks := 0, delta_div := 0 }

/-- `timer_increment(curr_cycles, elapsed, speed)`.  The `panic!` arm for
`speed ≥ 4` is unreachable (callers pass 3 or `tac & 0b11`) and is modelled
as shift 0; the final `as u8` cast is the `% 256`. -/
def timer_increment (curr_cycles elapsed speed : Nat) : Nat :=
  let shifts :=
    if speed = 0 then 8 + 2
    else if speed = 1 then 8 - 4
    else if speed = 2 then 8 - 2
    else if speed = 3 then 8
    else 0
  let mask := (1 <<< shifts) - 1
  (((curr_cycles &&& mask) + elapsed) >>> shifts) % 256

/-- `Timer::tick(mem, ticks)`, instantiated — as in `Runtime::tick_timer` —
with the `MMU` as the `impl Memory`.  Returns the updated timer and bus.
`internal_ticks` is a `u16` (`wrapping_add` is the `% 65536`); `div` is a
`u8` (`wrapping_add` is the `% 256`). -/
def Timer.tick (R : RomOps ρ) (t : Timer) (mem : MMU ρ) (ticks : Nat) :
    Timer × MMU ρ :=
  let internal_ticks := t.internal_ticks
  let t := { t with internal_ticks := (t.internal_ticks + ticks) % 65536 }
  let div := MMU.get R mem registers.DIV
  let timer_incr := timer_increment internal_ticks ticks 3
  let t := { t with delta_div := ((div &&& 0b11111) + timer_incr) >>> 5 }
  let div := (div + timer_incr) % 256
  let mem := MMU.hwset mem registers.DIV div
  let tima := MMU.get R mem registers.TIMA
  let tma := MMU.get R mem registers.TMA
  let tac := MMU.get R mem registers.TAC
  let timer_speed := tac &&& 0b11
  if get_bit tac 2 = 0x1 then
    let incr := timer_increment internal_ticks ticks timer_speed
    let interrupt := tima + incr > 0xFF
    if interrupt then
      let int_flag := MMU.get R mem registers.IF ||| 0b100
      let mem := MMU.set R mem registers.IF int_flag
      let tima := tma + ((incr - (0xFF - tima + 1)) &&& (0xFF - tma))
      (t, MMU.set R mem registers.TIMA tima)
    else
      (t, MMU.set R mem registers.TIMA (tima + incr))
  else
    (t, mem)

/-! ### More access lemmas, for chains of stores -/

theorem MMU.hwset_wram (m : MMU ρ) (a v : Nat) (h : a = 0xFF26 ∨ a = 0xFF04) :
    MMU.hwset m a v
      = { m with wram := fun i => if i = a - 0xA000 then v else m.wram i } := by
  unfold MMU.hwset
  rcases h with h | h <;> subst h
  · rw [if_pos rfl]
  · rw [if_neg (by omega), if_pos rfl]

theorem MMU.get_hwset_ne (R : RomOps ρ) (m : MMU ρ) (b a v : Nat)
    (hb : b = 0xFF26 ∨ b = 0xFF04)
    (h : 0xC000 ≤ a ∧ a ≤ 0xFFFF ∧ ¬ a ≤ 0xFDFF ∧ a ≠ 0xFF00 ∧ a ≠ b) :
    MMU.get R (MMU.hwset m b v) a = MMU.get R m a := by
  obtain ⟨h1, h2, h3, h4, h5⟩ := h
  rw [MMU.hwset_wram m b v hb, MMU.get_wram R _ a ⟨h1, h2, h3, h4⟩,
    MMU.get_wram R m a ⟨h1, h2, h3, h4⟩]
  have hne : a - 0xA000 ≠ b - 0xA000 := by rcases hb with h | h <;> omega
  simp [hne]

/-- Reading back a plain `wram` store at the stored address yields the
stored value. -/
theorem MMU.get_set_wram_self (R : RomOps ρ) (m : MMU ρ) (a v : Nat)
    (h : 0xC000 ≤ a ∧ a ≤ 0xFFFF ∧ ¬ a ≤ 0xFDFF ∧ a ≠ 0xFF00 ∧
      a ≠ 0xFF26 ∧ a ≠ 0xFF04 ∧ a ≠ 0xFF46) :
    MMU.get R (MMU.set R m a v) a = v := by
  obtain ⟨h1, h2, h3, h4, h5, h6, h7⟩ := h
  rw [MMU.set_wram R m a v ⟨h1, h2, by omega, h4, h5, h6, h7⟩,
    MMU.get_wram R _ a ⟨h1, h2, h3, h4⟩]
  simp

/-- A plain `wram` store at `b` does not change a read at `a ≠ b`. -/
theorem MMU.get_set_wram_ne (R : RomOps ρ) (m : MMU ρ) (b a v : Nat)
    (hb : 0xC000 ≤ b ∧ b ≤ 0xFFFF ∧ ¬(0xE000 ≤ b ∧ b ≤ 0xFDFF) ∧ b ≠ 0xFF00 ∧
      b ≠ 0xFF26 ∧ b ≠ 0xFF04 ∧ b ≠ 0xFF46)
    (h : 0xC000 ≤ a ∧ a ≤ 0xFFFF ∧ ¬ a ≤ 0xFDFF ∧ a ≠ 0xFF00 ∧ a ≠ b) :
    MMU.get R (MMU.set R m b v) a = MMU.get R m a := by
  obtain ⟨h1, h2, h3, h4, hne⟩ := h
  rw [MMU.set_wram R m b v hb, MMU.get_wram R _ a ⟨h1, h2, h3, h4⟩,
    MMU.get_wram R m a ⟨h1, h2, h3, h4⟩]
  have hne' : a - 0xA000 ≠ b - 0xA000 := by
    obtain ⟨hb1, -⟩ := hb
    omega
  simp [hne']

/-! ### C2 — TIMA overflow -/

/-- **C2 (amended).** For `Timer::tick(mem, n)` with TAC bit 2 set and
`incr = timer_increment(ticks, n, TAC[1:0])`: on overflow
(`TIMA + incr > 0xFF`) the call sets IF bit 2 and reloads
`TIMA' = TMA + ((incr - (0x100 - TIMA)) & (0xFF - TMA))` — the overflow
excess is bitwise-ANDed with `0xFF - TMA`, not added in full; otherwise
`TIMA' = TIMA + incr` and IF is unchanged. -/
theorem timer_tick_tima_spec (R : RomOps ρ) (t : Timer) (m : MMU ρ) (n : Nat)
    (htac : get_bit (MMU.get R m registers.TAC) 2 = 1)
    (htima : MMU.get R m registers.TIMA ≤ 0xFF)
    (htma : MMU.get R m registers.TMA ≤ 0xFF)
    (hn : n ≤ 255) :
    (MMU.get R m registers.TIMA
        + timer_increment t.internal_ticks n (MMU.get R m registers.TAC &&& 0b11)
          > 0xFF →
      Nat.testBit (MMU.get R (Timer.tick R t m n).2 registers.IF) 2 = true ∧
      MMU.get R (Timer.tick R t m n).2 registers.TIMA
        = MMU.get R m registers.TMA
          + ((timer_increment t.internal_ticks n
                (MMU.get R m registers.TAC &&& 0b11)
              - (0x100 - MMU.get R m registers.TIMA))
             &&& (0xFF - MMU.get R m registers.TMA))) ∧
    (MMU.get R m registers.TIMA
        + timer_increment t.internal_ticks n (MMU.get R m registers.TAC &&& 0b11)
          ≤ 0xFF →
      MMU.get R (Timer.tick R t m n).2 registers.TIMA
        = MMU.get R m registers.TIMA
          + timer_increment t.internal_ticks n
              (MMU.get R m registers.TAC &&& 0b11) ∧
      MMU.get R (Timer.tick R t m n).2 registers.IF
        = MMU.get R m registers.IF) := by
  have key : ∀ a, (0xC000 ≤ a ∧ a ≤ 0xFFFF ∧ ¬ a ≤ 0xFDFF ∧ a ≠ 0xFF00 ∧
      a ≠ 0xFF04) → ∀ d, MMU.get R (MMU.hwset m 0xFF04 d) a = MMU.get R m a :=
    fun a h d => MMU.get_hwset_ne R m 0xFF04 a d (Or.inr rfl) h
  simp only [Timer.tick, registers.DIV, registers.TIMA, registers.TMA,
    registers.TAC, registers.IF] at htac htima htma ⊢
  rw [key 0xFF05 (by omega) _, key 0xFF06 (by omega) _, key 0xFF07 (by omega) _,
    if_pos htac]
  constructor
  · intro hov
    rw [if_pos hov, key 0xFF0F (by omega) _]
    constructor
    · rw [MMU.get_set_wram_ne R _ 0xFF05 0xFF0F _ (by omega) (by omega),
        MMU.get_set_wram_self R _ 0xFF0F _ (by omega)]
      simp [Nat.testBit_lor, show Nat.testBit 4 2 = true from rfl]
    · rw [MMU.get_set_wram_self R _ 0xFF05 _ (by omega)]
      have e : 0xFF - MMU.get R m 0xFF05 + 1 = 0x100 - MMU.get R m 0xFF05 := by
        omega
      rw [e]
  · intro hnov
    rw [if_neg (by omega)]
    refine ⟨?_, ?_⟩
    · rw [MMU.get_set_wram_self R _ 0xFF05 _ (by omega)]
    · rw [MMU.get_set_wram_ne R _ 0xFF05 0xFF0F _ (by omega) (by omega),
        key 0xFF0F (by omega) _]

/-- A concrete bus state for the timer theorems: TAC = 0b101 (enabled,
speed 1), TIMA = 0xFE, TMA = 0x42. -/
def mmuTimer : MMU RomNoMBC :=
  { boot_rom := fun _ => 0
    rom := { rom := fun _ => 0 }
    vram := fun _ => 0
    wram := fun i =>
      if i = 0xFF07 - 0xA000 then 0b101
      else if i = 0xFF05 - 0xA000 then 0xFE
      else if i = 0xFF06 - 0xA000 then 0x42
      else 0
    hwcfg := 0
    inputs := 0xFF }

/-- Witness for `timer_tick_tima_spec`: an overflowing tick from
TIMA = 0xFE with incr = 3 lands on TMA + 1 = 0x43 and raises IF bit 2. -/
theorem timer_tick_tima_spec_witness :
    (get_bit (MMU.get romNoMBCOps mmuTimer registers.TAC) 2 = 1 ∧
     MMU.get romNoMBCOps mmuTimer registers.TIMA ≤ 0xFF ∧
     MMU.get romNoMBCOps mmuTimer registers.TMA ≤ 0xFF ∧
     (48 : Nat) ≤ 255 ∧
     MMU.get romNoMBCOps mmuTimer registers.TIMA
       + timer_increment Timer.new.internal_ticks 48
           (MMU.get romNoMBCOps mmuTimer registers.TAC &&& 0b11) > 0xFF) ∧
    (Nat.testBit
        (MMU.get romNoMBCOps (Timer.tick romNoMBCOps Timer.new mmuTimer 48).2
          registers.IF) 2 = true ∧
     MMU.get romNoMBCOps (Timer.tick romNoMBCOps Timer.new mmuTimer 48).2
        registers.TIMA
       = MMU.get romNoMBCOps mmuTimer registers.TMA
         + ((timer_increment Timer.new.internal_ticks 48
               (MMU.get romNoMBCOps mmuTimer registers.TAC &&& 0b11)
             - (0x100 - MMU.get romNoMBCOps mmuTimer registers.TIMA))
            &&& (0xFF - MMU.get romNoMBCOps mmuTimer registers.TMA))) :=
  ⟨by decide,
    (timer_tick_tima_spec romNoMBCOps Timer.new mmuTimer 48 (by decide)
      (by decide) (by decide) (by norm_num)).1 (by decide)⟩

/-- A concrete bus state refuting C2 as stated: TAC = 0b101, TIMA = 0xFF,
TMA = 0xFD. -/
def mmuTimerCx : MMU RomNoMBC :=
  { boot_rom := fun _ => 0
    rom := { rom := fun _ => 0 }
    vram := fun _ => 0
    wram := fun i =>
      if i = 0xFF07 - 0xA000 then 0b101
      else if i = 0xFF05 - 0xA000 then 0xFF
      else if i = 0xFF06 - 0xA000 then 0xFD
      else 0
    hwcfg := 0
    inputs := 0xFF }

/-- **C2 counterexample.** With TIMA = 0xFF, TMA = 0xFD and incr = 2
(overflow, excess 1), the code leaves TIMA = 0xFD — the excess is masked
away by `& (0xFF - TMA) = & 2` — while the claim's formula
`TMA + (incr - (0x100 - TIMA))` demands 0xFE. -/
theorem timer_tick_excess_counterexample :
    get_bit (MMU.get romNoMBCOps mmuTimerCx registers.TAC) 2 = 1 ∧
    MMU.get romNoMBCOps mmuTimerCx registers.TIMA
      + timer_increment Timer.new.internal_ticks 32
          (MMU.get romNoMBCOps mmuTimerCx registers.TAC &&& 0b11) > 0xFF ∧
    MMU.get romNoMBCOps (Timer.tick romNoMBCOps Timer.new mmuTimerCx 32).2
        registers.TIMA = 0xFD ∧
    MMU.get romNoMBCOps mmuTimerCx registers.TMA
      + (timer_increment Timer.new.internal_ticks 32
           (MMU.get romNoMBCOps mmuTimerCx registers.TAC &&& 0b11)
         - (0x100 - MMU.get romNoMBCOps mmuTimerCx registers.TIMA)) = 0xFE ∧
    (0xFD : Nat) ≠ 0xFE := by
  decide

/-! ## `runtime.rs` — CPU register file -/

structure CpuRegisters where
  ra : Nat
  rf : Nat
  rb : Nat
  rc : Nat
  rd : Nat
  re : Nat
  rh : Nat
  rl : Nat
  sp : Nat
  pc : Nat
  ime : Bool
  debug : Bool
  halt : Bool

/-- The `CFlag` enum: flag bit positions in F. -/
def CFlag.Z : Nat := 7
def CFlag.S : Nat := 6
def CFlag.H : Nat := 5
def CFlag.CY : Nat := 4

def CpuRegisters.new : CpuRegisters :=
  { ra := 0, rf := 0, rb := 0, rc := 0, rd := 0, re := 0, rh := 0, rl := 0
    pc := 0, sp := 0, ime := false, debug := false, halt := false }

def CpuRegisters.atboot : CpuRegisters :=
  { ra := 0x01, rf := 0b10110000, rb := 0x00, rc := 0x13, rd := 0x00
    re := 0xD8, rh := 0x01, rl := 0x4D, pc := 0x0100, sp := 0xFFFE
    ime := false, debug := true, halt := false }

def CpuRegisters.set_flag (c : CpuRegisters) (flag : Nat) (val : Nat) :
    CpuRegisters :=
  { c with rf := set_bit c.rf flag (val == 1) }

def CpuRegisters.get_flag (c : CpuRegisters) (flag : Nat) : Nat :=
  get_bit c.rf flag

def CpuRegisters.af (c : CpuRegisters) : Nat := join_u8 c.ra c.rf

def CpuRegisters.set_af (c : CpuRegisters) (val : Nat) : CpuRegisters :=
  let hl := split_u16 val
  { c with ra := hl.1, rf := hl.2 &&& 0xF0 }

/-- `CpuRegisters::rlc(val)`: rotate left circular; the `u8` shift
truncation is the `% 256`.  Returns the updated register file and the
rotated byte. -/
def CpuRegisters.rlc (c : CpuRegisters) (val : Nat) : CpuRegisters × Nat :=
  let msb := get_bit val 7
  let res := (val <<< 1) % 256 + msb
  let c := c.set_flag CFlag.Z (if res = 0 then 1 else 0)
  let c := c.set_flag CFlag.S 0
  let c := c.set_flag CFlag.H 0
  let c := c.set_flag CFlag.CY msb
  (c, res)

/-- `CpuRegisters::rrc(val)`: rotate right circular. -/
def CpuRegisters.rrc (c : CpuRegisters) (val : Nat) : CpuRegisters × Nat :=
  let lsb := get_bit val 0
  let res := (val >>> 1) + (lsb <<< 7)
  let c := c.set_flag CFlag.Z (if res = 0 then 1 else 0)
  let c := c.set_flag CFlag.S 0
  let c := c.set_flag CFlag.H 0
  let c := c.set_flag CFlag.CY lsb
  (c, res)

/-! ### C5 — the low nibble of F is invariantly zero

In `runtime.rs` the field `rf` is assigned in exactly two places:
`set_flag` (with a flag position drawn from the `CFlag` enum, i.e. bit
7, 6, 5 or 4) and `set_af` (which masks with `0xF0`).  Every instruction's
effect on F therefore factors through these two functions; `FStep` is the
induced step relation, over-approximating one instruction's effect on the
register file: either a `set_flag` call, a `set_af` call, or an arbitrary
change that leaves `rf` untouched. -/

def FStep (r r' : CpuRegisters) : Prop :=
  (∃ f v, (f = CFlag.Z ∨ f = CFlag.S ∨ f = CFlag.H ∨ f = CFlag.CY) ∧
    r' = r.set_flag f v) ∨
  (∃ v, r' = r.set_af v) ∨
  r'.rf = r.rf

/-- Reachability from either reset state (`new`, or `atboot` used by the
`noboot` entry point) by any sequence of executed instructions. -/
def FReachable (r : CpuRegisters) : Prop :=
  Relation.ReflTransGen FStep CpuRegisters.new r ∨
  Relation.ReflTransGen FStep CpuRegisters.atboot r

set_option maxRecDepth 4000 in
theorem set_bit_flags_aux : ∀ reg, reg < 256 → reg % 16 = 0 → ∀ b : Bool,
    (set_bit reg 4 b < 256 ∧ set_bit reg 4 b % 16 = 0) ∧
    (set_bit reg 5 b < 256 ∧ set_bit reg 5 b % 16 = 0) ∧
    (set_bit reg 6 b < 256 ∧ set_bit reg 6 b % 16 = 0) ∧
    (set_bit reg 7 b < 256 ∧ set_bit reg 7 b % 16 = 0) := by decide

set_option maxRecDepth 4000 in
theorem and_f0_aux : ∀ w, w < 256 → w &&& 0xF0 < 256 ∧ (w &&& 0xF0) % 16 = 0 := by
  decide

theorem set_af_rf (c : CpuRegisters) (v : Nat) :
    (c.set_af v).rf < 256 ∧ (c.set_af v).rf % 16 = 0 := by
  have h255 : v &&& 0xFF < 256 := by
    have h : v &&& 0xFF ≤ 0xFF := Nat.and_le_right
    omega
  exact and_f0_aux (v &&& 0xFF) h255

theorem FStep_preserves (r r' : CpuRegisters) (h : FStep r r')
    (hr : r.rf < 256 ∧ r.rf % 16 = 0) : r'.rf < 256 ∧ r'.rf % 16 = 0 := by
  rcases h with ⟨f, v, hf, rfl⟩ | ⟨v, rfl⟩ | heq
  · have haux := set_bit_flags_aux r.rf hr.1 hr.2 (v == 1)
    show set_bit r.rf f (v == 1) < 256 ∧ set_bit r.rf f (v == 1) % 16 = 0
    rcases hf with rfl | rfl | rfl | rfl
    · exact haux.2.2.2
    · exact haux.2.2.1
    · exact haux.2.1
    · exact haux.1
  · exact set_af_rf r v
  · rw [heq]
    exact hr

theorem FReachable_inv (r : CpuRegisters) (h : FReachable r) :
    r.rf < 256 ∧ r.rf % 16 = 0 := by
  rcases h with h | h
  · induction h with
    | refl => exact ⟨by decide, by decide⟩
    | tail _ hstep ih => exact FStep_preserves _ _ hstep ih
  · induction h with
    | refl => exact ⟨by decide, by decide⟩
    | tail _ hstep ih => exact FStep_preserves _ _ hstep ih

/-- **C5.** In every CPU state reachable from reset by any sequence of
executed instructions (each instruction's writes to F go through
`set_flag` or `set_af`, the only two assignments to `rf` in the source),
the low nibble of F is zero; and `set_af` masks the low four bits of the
value written to F to zero. -/
theorem f_low_nibble_zero :
    (∀ r : CpuRegisters, FReachable r → r.rf % 16 = 0) ∧
    (∀ (c : CpuRegisters) (v : Nat), (c.set_af v).rf % 16 = 0) :=
  ⟨fun r h => (FReachable_inv r h).2, fun c v => (set_af_rf c v).2⟩

/-- Witness for `f_low_nibble_zero`: the state after `POP AF` of `0x1234`
from the post-boot reset state is reachable, and its F low nibble is 0. -/
theorem f_low_nibble_zero_witness :
    FReachable (CpuRegisters.atboot.set_af 0x1234) ∧
    (CpuRegisters.atboot.set_af 0x1234).rf % 16 = 0 :=
  ⟨Or.inr (Relation.ReflTransGen.tail Relation.ReflTransGen.refl
      (Or.inr (Or.inl ⟨0x1234, rfl⟩))),
    f_low_nibble_zero.1 (CpuRegisters.atboot.set_af 0x1234)
      (Or.inr (Relation.ReflTransGen.tail Relation.ReflTransGen.refl
        (Or.inr (Or.inl ⟨0x1234, rfl⟩))))⟩

/-! ### C9 — RLC/RRC are 8-cyclic on the byte, but clobber the carry -/

/-- One application of `rlc`, threading the register file and the byte. -/
def rlcStep (p : CpuRegisters × Nat) : CpuRegisters × Nat := p.1.rlc p.2

/-- One application of `rrc`, threading the register file and the byte. -/
def rrcStep (p : CpuRegisters × Nat) : CpuRegisters × Nat := p.1.rrc p.2

/-- The byte component of one `rlc`. -/
def rlcByte (val : Nat) : Nat := (val <<< 1) % 256 + get_bit val 7

/-- The byte component of one `rrc`. -/
def rrcByte (val : Nat) : Nat := (val >>> 1) + (get_bit val 0 <<< 7)

theorem rlcStep_snd (p : CpuRegisters × Nat) : (rlcStep p).2 = rlcByte p.2 := rfl

theorem rrcStep_snd (p : CpuRegisters × Nat) : (rrcStep p).2 = rrcByte p.2 := rfl

theorem rlcStep_cy (p : CpuRegisters × Nat) :
    ((rlcStep p).1).get_flag CFlag.CY = get_bit p.2 7 := by
  show get_bit (set_bit _ CFlag.CY (get_bit p.2 7 == 1)) CFlag.CY = get_bit p.2 7
  rw [get_bit_eq_testBit, set_bit_testBit_self _ _ _ (by simp [CFlag.CY]),
    get_bit_eq_testBit]
  cases Nat.testBit p.2 7 <;> rfl

theorem rrcStep_cy (p : CpuRegisters × Nat) :
    ((rrcStep p).1).get_flag CFlag.CY = get_bit p.2 0 := by
  show get_bit (set_bit _ CFlag.CY (get_bit p.2 0 == 1)) CFlag.CY = get_bit p.2 0
  rw [get_bit_eq_testBit, set_bit_testBit_self _ _ _ (by simp [CFlag.CY]),
    get_bit_eq_testBit]
  cases Nat.testBit p.2 0 <;> rfl

theorem rlcStep_iter_snd (k : Nat) (p : CpuRegisters × Nat) :
    (rlcStep^[k] p).2 = rlcByte^[k] p.2 := by
  induction k generalizing p with
  | zero => rfl
  | succ k ih => rw [Function.iterate_succ_apply, Function.iterate_succ_apply,
      ih, rlcStep_snd]

theorem rrcStep_iter_snd (k : Nat) (p : CpuRegisters × Nat) :
    (rrcStep^[k] p).2 = rrcByte^[k] p.2 := by
  induction k generalizing p with
  | zero => rfl
  | succ k ih => rw [Function.iterate_succ_apply, Function.iterate_succ_apply,
      ih, rrcStep_snd]

set_option maxRecDepth 8000 in
theorem rlc_rrc_byte_aux : ∀ x, x < 256 →
    rlcByte^[8] x = x ∧ get_bit (rlcByte^[7] x) 7 = get_bit x 0 ∧
    rrcByte^[8] x = x ∧ get_bit (rrcByte^[7] x) 0 = get_bit x 7 := by
  decide

/-- **C9 (amended).** Applying RLC (resp. RRC) eight times yields the byte
`x` again; the final carry flag equals bit 0 of `x` (resp. bit 7 of `x`) —
each application overwrites C with the ejected bit, so the initial carry
value is not restored. -/
theorem rlc_rrc_eight_cyclic (c : CpuRegisters) (x : Nat) (hx : x < 256) :
    ((rlcStep^[8] (c, x)).2 = x ∧
     ((rlcStep^[8] (c, x)).1).get_flag CFlag.CY = get_bit x 0) ∧
    ((rrcStep^[8] (c, x)).2 = x ∧
     ((rrcStep^[8] (c, x)).1).get_flag CFlag.CY = get_bit x 7) := by
  obtain ⟨h8l, h7l, h8r, h7r⟩ := rlc_rrc_byte_aux x hx
  refine ⟨⟨?_, ?_⟩, ?_, ?_⟩
  · rw [rlcStep_iter_snd, h8l]
  · rw [show (8 : Nat) = 7 + 1 from rfl, Function.iterate_succ_apply',
      rlcStep_cy, rlcStep_iter_snd, h7l]
  · rw [rrcStep_iter_snd, h8r]
  · rw [show (8 : Nat) = 7 + 1 from rfl, Function.iterate_succ_apply',
      rrcStep_cy, rrcStep_iter_snd, h7r]

/-- Witness for `rlc_rrc_eight_cyclic` at byte `0xA5`. -/
theorem rlc_rrc_eight_cyclic_witness :
    (0xA5 : Nat) < 256 ∧
    (((rlcStep^[8] (CpuRegisters.new, 0xA5)).2 = 0xA5 ∧
      ((rlcStep^[8] (CpuRegisters.new, 0xA5)).1).get_flag CFlag.CY
        = get_bit 0xA5 0) ∧
     ((rrcStep^[8] (CpuRegisters.new, 0xA5)).2 = 0xA5 ∧
      ((rrcStep^[8] (CpuRegisters.new, 0xA5)).1).get_flag CFlag.CY
        = get_bit 0xA5 7)) :=
  ⟨by decide, rlc_rrc_eight_cyclic CpuRegisters.new 0xA5 (by decide)⟩

/-- The reset register file with the carry flag forced to 1. -/
def cpuCarrySet : CpuRegisters := CpuRegisters.new.set_flag CFlag.CY 1

/-- **C9 counterexample.** Starting with C = 1 and byte `0x00`, eight RLC
(or RRC) applications return the byte but leave C = 0 ≠ 1: the original
carry value is not restored. -/
theorem rlc_rrc_carry_counterexample :
    cpuCarrySet.get_flag CFlag.CY = 1 ∧
    (rlcStep^[8] (cpuCarrySet, 0)).2 = 0 ∧
    ((rlcStep^[8] (cpuCarrySet, 0)).1).get_flag CFlag.CY = 0 ∧
    (rrcStep^[8] (cpuCarrySet, 0)).2 = 0 ∧
    ((rrcStep^[8] (cpuCarrySet, 0)).1).get_flag CFlag.CY = 0 ∧
    (0 : Nat) ≠ 1 := by
  decide

/-! ## `runtime.rs` — the `Runtime` aggregate and the interrupt dispatcher -/

structure Runtime (ρ : Type) where
  memory : MMU ρ
  cpu : CpuRegisters
  timer : Timer

/-- `impl Memory for Runtime`: `get` forwards to `MMU::get`. -/
def Runtime.get (R : RomOps ρ) (rt : Runtime ρ) (addr : Nat) : Nat :=
  MMU.get R rt.memory addr

/-- `impl Memory for Runtime`: `set` forwards to `MMU::set`. -/
def Runtime.set (R : RomOps ρ) (rt : Runtime ρ) (addr val : Nat) : Runtime ρ :=
  { rt with memory := MMU.set R rt.memory addr val }

/-- `impl Memory for Runtime`: `hwset` forwards to `MMU::set` — not to
`MMU::hwset`. -/
def Runtime.hwset (R : RomOps ρ) (rt : Runtime ρ) (addr val : Nat) : Runtime ρ :=
  { rt with memory := MMU.set R rt.memory addr val }

/-- `Runtime::stack_push`: `sp -= 1` (16-bit) then store through `set`. -/
def Runtime.stack_push (R : RomOps ρ) (rt : Runtime ρ) (value : Nat) :
    Runtime ρ :=
  let rt := { rt with cpu := { rt.cpu with sp := (rt.cpu.sp + 0xFFFF) % 0x10000 } }
  Runtime.set R rt rt.cpu.sp value

/-- `Runtime::stack_push_u16`: push the high byte, then the low byte. -/
def Runtime.stack_push_u16 (R : RomOps ρ) (rt : Runtime ρ) (value : Nat) :
    Runtime ρ :=
  let hl := split_u16 value
  Runtime.stack_push R (Runtime.stack_push R rt hl.1) hl.2

/-- The `if get_bit(interrupts, 0) == 1 { … } else if …` chain in
`Runtime::tick` that services the lowest-priority-number pending bit:
set `pc` to the vector and clear the serviced bit in IF (written through
`set`, as in the source).  `rt` here is the state after the PC push. -/
def Runtime.service_lowest (R : RomOps ρ) (rt : Runtime ρ)
    (interrupts interrupt_flag : Nat) : Runtime ρ :=
  if get_bit interrupts 0 = 1 then
    Runtime.set R { rt with cpu := { rt.cpu with pc := 0x40 } }
      registers.IF (set_bit interrupt_flag 0 false)
  else if get_bit interrupts 1 = 1 then
    Runtime.set R { rt with cpu := { rt.cpu with pc := 0x48 } }
      registers.IF (set_bit interrupt_flag 1 false)
  else if get_bit interrupts 2 = 1 then
    Runtime.set R { rt with cpu := { rt.cpu with pc := 0x50 } }
      registers.IF (set_bit interrupt_flag 2 false)
  else if get_bit interrupts 3 = 1 then
    Runtime.set R { rt with cpu := { rt.cpu with pc := 0x58 } }
      registers.IF (set_bit interrupt_flag 3 false)
  else if get_bit interrupts 4 = 1 then
    Runtime.set R { rt with cpu := { rt.cpu with pc := 0x60 } }
      registers.IF (set_bit interrupt_flag 4 false)
  else rt

/-- The interrupt phase of `Runtime::tick` (lines before the opcode fetch).
`none` models the early `return 1` taken when the halt latch is set with no
pending interrupt; `some rt'` is the state in which control falls through
to the opcode fetch. -/
def Runtime.tick_interrupts (R : RomOps ρ) (rt : Runtime ρ) :
    Option (Runtime ρ) :=
  let interrupts := Runtime.get R rt registers.IE &&& Runtime.get R rt registers.IF
  if rt.cpu.halt ∧ interrupts = 0 then none
  else
    let rt := if rt.cpu.halt then { rt with cpu := { rt.cpu with halt := false } }
              else rt
    if rt.cpu.ime ∧ interrupts ≠ 0 then
      let rt := { rt with cpu := { rt.cpu with ime := false } }
      let rt := Runtime.stack_push_u16 R rt rt.cpu.pc
      let interrupt_flag := Runtime.get R rt 0xFF0F
      some (Runtime.service_lowest R rt interrupts interrupt_flag)
    else some rt

/-- `Runtime::tick`.  The opcode fetch-decode-execute that follows the
interrupt phase (the `next_opcode` read and the 256-arm `match`, lines
483–2319 of `runtime.rs`) is abstracted as `exec`, a function from the
fall-through state to the post-instruction state and its cycle count; the
debug `println!` has no state effect. -/
def Runtime.tick (R : RomOps ρ) (exec : Runtime ρ → Runtime ρ × Nat)
    (rt : Runtime ρ) : Runtime ρ × Nat :=
  match Runtime.tick_interrupts R rt with
  | none => (rt, 1)
  | some rt' => exec rt'

/-! ### C10 — `Runtime`'s `hwset` coincides with `set` -/

/-- **C10.** `Runtime::hwset(addr, v)` performs exactly the same state
transition as `Runtime::set(addr, v)` (both forward to `MMU::set`); in
particular a hardware write to `0xFF04` through the `Runtime` stores 0
instead of `v`, and a hardware write to `0xFF26` through the `Runtime`
only alters bit 7 of the stored NR52 byte. -/
theorem runtime_hwset_eq_set (R : RomOps ρ) :
    (∀ (rt : Runtime ρ) (addr v : Nat),
      Runtime.hwset R rt addr v = Runtime.set R rt addr v) ∧
    (∀ (rt : Runtime ρ) (v : Nat),
      Runtime.get R (Runtime.hwset R rt 0xFF04 v) 0xFF04 = 0) ∧
    (∀ (rt : Runtime ρ) (v i : Nat), i < 8 → i ≠ 7 →
      Nat.testBit (Runtime.get R (Runtime.hwset R rt 0xFF26 v) 0xFF26) i
        = Nat.testBit (Runtime.get R rt 0xFF26) i) ∧
    (∀ (rt : Runtime ρ) (v : Nat),
      Nat.testBit (Runtime.get R (Runtime.hwset R rt 0xFF26 v) 0xFF26) 7
        = Nat.testBit v 7) := by
  refine ⟨fun rt addr v => rfl, fun rt v => ?_, fun rt v i hi hne => ?_,
    fun rt v => ?_⟩
  · exact div_write_stores_zero R rt.memory v
  · exact (nr52_write_bit7_only R rt.memory v).1 i hi hne
  · exact (nr52_write_bit7_only R rt.memory v).2

/-- A concrete runtime used to instantiate theorems. -/
def rtW : Runtime RomNoMBC :=
  { memory := mmuW2, cpu := CpuRegisters.atboot, timer := Timer.new }

/-- Witness for `runtime_hwset_eq_set` at a concrete runtime state. -/
theorem runtime_hwset_eq_set_witness :
    ((2 : Nat) < 8 ∧ (2 : Nat) ≠ 7) ∧
    Runtime.hwset romNoMBCOps rtW 0xC123 0x42
      = Runtime.set romNoMBCOps rtW 0xC123 0x42 ∧
    Runtime.get romNoMBCOps (Runtime.hwset romNoMBCOps rtW 0xFF04 0x99) 0xFF04
      = 0 ∧
    Nat.testBit
        (Runtime.get romNoMBCOps (Runtime.hwset romNoMBCOps rtW 0xFF26 0x80)
          0xFF26) 2
      = Nat.testBit (Runtime.get romNoMBCOps rtW 0xFF26) 2 ∧
    Nat.testBit
        (Runtime.get romNoMBCOps (Runtime.hwset romNoMBCOps rtW 0xFF26 0x80)
          0xFF26) 7
      = Nat.testBit 0x80 7 :=
  ⟨by decide,
    (runtime_hwset_eq_set romNoMBCOps).1 rtW 0xC123 0x42,
    (runtime_hwset_eq_set romNoMBCOps).2.1 rtW 0x99,
    (runtime_hwset_eq_set romNoMBCOps).2.2.1 rtW 0x80 2 (by norm_num) (by decide),
    (runtime_hwset_eq_set romNoMBCOps).2.2.2 rtW 0x80⟩

/-! ### C1 — interrupt dispatch -/

theorem Runtime.stack_push_u16_spec (R : RomOps ρ) (rt : Runtime ρ) (value : Nat)
    (hsp1 : 0xFF82 ≤ rt.cpu.sp) (hsp2 : rt.cpu.sp ≤ 0xFFFE) :
    Runtime.stack_push_u16 R rt value
      = { rt with
          cpu := { rt.cpu with sp := rt.cpu.sp - 2 }
          memory := MMU.set R
            (MMU.set R rt.memory (rt.cpu.sp - 1) ((value >>> 8) % 256))
            (rt.cpu.sp - 2) (value &&& 0xFF) } := by
  unfold Runtime.stack_push_u16 Runtime.stack_push Runtime.set split_u16
  dsimp only
  have e1 : (rt.cpu.sp + 0xFFFF) % 0x10000 = rt.cpu.sp - 1 := by omega
  have e2 : (rt.cpu.sp - 1 + 0xFFFF) % 0x10000 = rt.cpu.sp - 2 := by omega
  rw [e1, e2]

/-- When IME is set and an interrupt is pending, the interrupt phase
falls through to the dispatch chain applied to the pushed state. -/
theorem Runtime.tick_interrupts_fire (R : RomOps ρ) (rt : Runtime ρ)
    (hime : rt.cpu.ime = true)
    (hint : Runtime.get R rt registers.IE &&& Runtime.get R rt registers.IF ≠ 0) :
    Runtime.tick_interrupts R rt
      = some (Runtime.service_lowest R
          (Runtime.stack_push_u16 R
            { rt with cpu := { rt.cpu with ime := false, halt := false } }
            rt.cpu.pc)
          (Runtime.get R rt registers.IE &&& Runtime.get R rt registers.IF)
          (Runtime.get R
            (Runtime.stack_push_u16 R
              { rt with cpu := { rt.cpu with ime := false, halt := false } }
              rt.cpu.pc) 0xFF0F)) := by
  obtain ⟨mem, cpu, tmr⟩ := rt
  obtain ⟨ra, rf, rb, rc, rd, re, rh, rl, sp, pc, ime, debug, halt⟩ := cpu
  dsimp only [Runtime.get] at hime hint ⊢
  subst hime
  unfold Runtime.tick_interrupts
  dsimp only [Runtime.get]
  generalize hI : MMU.get R mem registers.IE &&& MMU.get R mem registers.IF = I
  rw [hI] at hint
  cases halt with
  | false =>
    have c1 : ¬(false = true ∧ I = 0) := by simp
    have c2 : ¬(false = true) := by simp
    rw [if_neg c1, if_neg c2, if_pos (⟨rfl, hint⟩ : true = true ∧ I ≠ 0)]
  | true =>
    have c1 : ¬(true = true ∧ I = 0) := fun h => hint h.2
    rw [if_neg c1, if_pos (rfl : true = true)]
    dsimp only
    rw [if_pos (⟨rfl, hint⟩ : true = true ∧ I ≠ 0)]

theorem Runtime.service_lowest_spec (R : RomOps ρ) (rt : Runtime ρ)
    (interrupts flag : Nat) (hp : interrupts &&& 0x1F ≠ 0) :
    ∃ i, i < 5 ∧ Nat.testBit interrupts i = true ∧
      (∀ j, j < i → Nat.testBit interrupts j = false) ∧
      Runtime.service_lowest R rt interrupts flag
        = Runtime.set R { rt with cpu := { rt.cpu with pc := 0x40 + 8 * i } }
            registers.IF (set_bit flag i false) := by
  unfold Runtime.service_lowest
  cases hb0 : Nat.testBit interrupts 0 with
  | true =>
    refine ⟨0, by norm_num, hb0, fun j hj => absurd hj (by omega), ?_⟩
    rw [if_pos (show get_bit interrupts 0 = 1 by
      rw [get_bit_eq_testBit, hb0]; rfl)]
  | false =>
    rw [if_neg (show ¬ get_bit interrupts 0 = 1 by
      rw [get_bit_eq_testBit, hb0]; simp)]
    cases hb1 : Nat.testBit interrupts 1 with
    | true =>
      refine ⟨1, by norm_num, hb1, ?_, ?_⟩
      · intro j hj
        interval_cases j
        exact hb0
      · rw [if_pos (show get_bit interrupts 1 = 1 by
          rw [get_bit_eq_testBit, hb1]; rfl)]
    | false =>
      rw [if_neg (show ¬ get_bit interrupts 1 = 1 by
        rw [get_bit_eq_testBit, hb1]; simp)]
      cases hb2 : Nat.testBit interrupts 2 with
      | true =>
        refine ⟨2, by norm_num, hb2, ?_, ?_⟩
        · intro j hj
          interval_cases j
          · exact hb0
          · exact hb1
        · rw [if_pos (show get_bit interrupts 2 = 1 by
            rw [get_bit_eq_testBit, hb2]; rfl)]
      | false =>
        rw [if_neg (show ¬ get_bit interrupts 2 = 1 by
          rw [get_bit_eq_testBit, hb2]; simp)]
        cases hb3 : Nat.testBit interrupts 3 with
        | true =>
          refine ⟨3, by norm_num, hb3, ?_, ?_⟩
          · intro j hj
            interval_cases j
            · exact hb0
            · exact hb1
            · exact hb2
          · rw [if_pos (show get_bit interrupts 3 = 1 by
              rw [get_bit_eq_testBit, hb3]; rfl)]
        | false =>
          rw [if_neg (show ¬ get_bit interrupts 3 = 1 by
            rw [get_bit_eq_testBit, hb3]; simp)]
          cases hb4 : Nat.testBit interrupts 4 with
          | true =>
            refine ⟨4, by norm_num, hb4, ?_, ?_⟩
            · intro j hj
              interval_cases j
              · exact hb0
              · exact hb1
              · exact hb2
              · exact hb3
            · rw [if_pos (show get_bit interrupts 4 = 1 by
                rw [get_bit_eq_testBit, hb4]; rfl)]
          | false =>
            exfalso
            apply hp
            apply Nat.eq_of_testBit_eq
            intro j
            rw [Nat.testBit_land, Nat.zero_testBit]
            rcases lt_or_ge j 5 with hj | hj
            · interval_cases j <;> simp [hb0, hb1, hb2, hb3, hb4]
            · have h31 : Nat.testBit 31 j = false := by
                apply Nat.testBit_lt_two_pow
                calc (31 : Nat) < 32 := by norm_num
                _ = 2 ^ 5 := by norm_num
                _ ≤ 2 ^ j := Nat.pow_le_pow_right (by norm_num) hj
              simp [h31]

/-- **C1 (amended).** If `Runtime::tick` begins with `IME == true` and
`pending = IE & IF` has a set bit among bits 0–4, it clears IME, pushes PC
(high byte then low byte, SP pre-decremented before each), clears exactly
the lowest set bit of `pending` in IF, sets PC to that bit's vector
(`0x40 + 8·i`, i.e. bit0→0x0040, bit1→0x0048, bit2→0x0050, bit3→0x0058,
bit4→0x0060) and proceeds with a normal opcode fetch; if the halt latch is
set and `pending == 0`, `tick` returns 1 cycle without fetching an opcode.
(The claim's hypothesis `pending ≠ 0` alone does not suffice: when
`pending` has set bits only above bit 4, no IF bit is cleared and PC keeps
its value.)  The hypotheses `0xFF82 ≤ SP ≤ 0xFFFE` place the pushed bytes
in high RAM, away from the memory-mapped registers read by the dispatcher;
`PC < 0x10000` is the `u16` range. -/
theorem interrupt_dispatch_spec (R : RomOps ρ)
    (exec : Runtime ρ → Runtime ρ × Nat) (rt : Runtime ρ) :
    ((rt.cpu.ime = true ∧
      (Runtime.get R rt registers.IE &&& Runtime.get R rt registers.IF) &&& 0x1F
        ≠ 0 ∧
      0xFF82 ≤ rt.cpu.sp ∧ rt.cpu.sp ≤ 0xFFFE ∧ rt.cpu.pc < 0x10000) →
      ∃ rt', Runtime.tick_interrupts R rt = some rt' ∧
        Runtime.tick R exec rt = exec rt' ∧
        rt'.cpu.ime = false ∧
        rt'.cpu.sp = rt.cpu.sp - 2 ∧
        Runtime.get R rt' (rt.cpu.sp - 1) = rt.cpu.pc >>> 8 ∧
        Runtime.get R rt' (rt.cpu.sp - 2) = rt.cpu.pc &&& 0xFF ∧
        ∃ i, i < 5 ∧
          Nat.testBit
            (Runtime.get R rt registers.IE &&& Runtime.get R rt registers.IF) i
            = true ∧
          (∀ j, j < i →
            Nat.testBit
              (Runtime.get R rt registers.IE &&& Runtime.get R rt registers.IF) j
              = false) ∧
          rt'.cpu.pc = 0x40 + 8 * i ∧
          Nat.testBit (Runtime.get R rt registers.IF) i = true ∧
          Nat.testBit (Runtime.get R rt' registers.IF) i = false ∧
          (∀ j, j < 8 → j ≠ i →
            Nat.testBit (Runtime.get R rt' registers.IF) j
              = Nat.testBit (Runtime.get R rt registers.IF) j)) ∧
    ((rt.cpu.halt = true ∧
      Runtime.get R rt registers.IE &&& Runtime.get R rt registers.IF = 0) →
      Runtime.tick R exec rt = (rt, 1)) := by
  constructor
  · rintro ⟨hime, hp, hsp1, hsp2, hpc⟩
    have hint : Runtime.get R rt registers.IE &&& Runtime.get R rt registers.IF
        ≠ 0 := by
      intro h
      rw [h] at hp
      exact hp rfl
    have hfire := Runtime.tick_interrupts_fire R rt hime hint
    have hpush := Runtime.stack_push_u16_spec R
      { rt with cpu := { rt.cpu with ime := false, halt := false } }
      rt.cpu.pc hsp1 hsp2
    rw [hpush] at hfire
    dsimp only [Runtime.get, registers.IE, registers.IF] at hfire
    have hflag : MMU.get R
        (MMU.set R (MMU.set R rt.memory (rt.cpu.sp - 1) ((rt.cpu.pc >>> 8) % 256))
          (rt.cpu.sp - 2) (rt.cpu.pc &&& 0xFF)) 0xFF0F
        = MMU.get R rt.memory 0xFF0F := by
      rw [MMU.get_set_wram_ne R _ (rt.cpu.sp - 2) 0xFF0F _ (by omega) (by omega),
        MMU.get_set_wram_ne R _ (rt.cpu.sp - 1) 0xFF0F _ (by omega) (by omega)]
    rw [hflag] at hfire
    obtain ⟨i, hi5, hbit, hlow, hserv⟩ := Runtime.service_lowest_spec R
      { { rt with cpu := { rt.cpu with ime := false, halt := false } } with
        cpu := { { rt.cpu with ime := false, halt := false } with
                  sp := rt.cpu.sp - 2 }
        memory := MMU.set R
          (MMU.set R rt.memory (rt.cpu.sp - 1) ((rt.cpu.pc >>> 8) % 256))
          (rt.cpu.sp - 2) (rt.cpu.pc &&& 0xFF) }
      (MMU.get R rt.memory 0xFFFF &&& MMU.get R rt.memory 0xFF0F)
      (MMU.get R rt.memory 0xFF0F) hp
    dsimp only [registers.IF] at hserv
    rw [hserv] at hfire
    refine ⟨_, hfire, ?_, rfl, rfl, ?_, ?_, ?_⟩
    · unfold Runtime.tick
      rw [hfire]
    · show MMU.get R (MMU.set R (MMU.set R (MMU.set R rt.memory (rt.cpu.sp - 1)
          ((rt.cpu.pc >>> 8) % 256)) (rt.cpu.sp - 2) (rt.cpu.pc &&& 0xFF))
          0xFF0F _) (rt.cpu.sp - 1) = rt.cpu.pc >>> 8
      rw [MMU.get_set_wram_ne R _ 0xFF0F (rt.cpu.sp - 1) _ (by omega) (by omega),
        MMU.get_set_wram_ne R _ (rt.cpu.sp - 2) (rt.cpu.sp - 1) _ (by omega)
          (by omega),
        MMU.get_set_wram_self R _ (rt.cpu.sp - 1) _ (by omega)]
      have hlt : rt.cpu.pc >>> 8 < 256 := by
        rw [Nat.shiftRight_eq_div_pow]
        omega
      exact Nat.mod_eq_of_lt hlt
    · show MMU.get R (MMU.set R (MMU.set R (MMU.set R rt.memory (rt.cpu.sp - 1)
          ((rt.cpu.pc >>> 8) % 256)) (rt.cpu.sp - 2) (rt.cpu.pc &&& 0xFF))
          0xFF0F _) (rt.cpu.sp - 2) = rt.cpu.pc &&& 0xFF
      rw [MMU.get_set_wram_ne R _ 0xFF0F (rt.cpu.sp - 2) _ (by omega) (by omega),
        MMU.get_set_wram_self R _ (rt.cpu.sp - 2) _ (by omega)]
    · refine ⟨i, hi5, hbit, hlow, rfl, ?_, ?_, ?_⟩
      · have hb := hbit
        rw [Nat.testBit_land] at hb
        exact (Bool.and_eq_true _ _).mp hb |>.2
      · show Nat.testBit (MMU.get R (MMU.set R (MMU.set R (MMU.set R rt.memory
            (rt.cpu.sp - 1) ((rt.cpu.pc >>> 8) % 256)) (rt.cpu.sp - 2)
            (rt.cpu.pc &&& 0xFF)) 0xFF0F
            (set_bit (MMU.get R rt.memory 0xFF0F) i false)) 0xFF0F) i = false
        rw [MMU.get_set_wram_self R _ 0xFF0F _ (by omega),
          set_bit_testBit_self _ _ _ (by omega)]
      · intro j hj8 hji
        show Nat.testBit (MMU.get R (MMU.set R (MMU.set R (MMU.set R rt.memory
            (rt.cpu.sp - 1) ((rt.cpu.pc >>> 8) % 256)) (rt.cpu.sp - 2)
            (rt.cpu.pc &&& 0xFF)) 0xFF0F
            (set_bit (MMU.get R rt.memory 0xFF0F) i false)) 0xFF0F) j
          = Nat.testBit (Runtime.get R rt registers.IF) j
        rw [MMU.get_set_wram_self R _ 0xFF0F _ (by omega),
          set_bit_testBit_other _ _ _ _ (by omega) hj8 hji]
        rfl
  · rintro ⟨hhalt, h0⟩
    have hnone : Runtime.tick_interrupts R rt = none := by
      unfold Runtime.tick_interrupts
      rw [if_pos (⟨hhalt, h0⟩ : rt.cpu.halt = true ∧
        Runtime.get R rt registers.IE &&& Runtime.get R rt registers.IF = 0)]
    unfold Runtime.tick
    rw [hnone]

/-- A concrete runtime poised to service the timer interrupt:
IE = IF = 0x04, IME set, SP = 0xFFFE, PC = 0x1234. -/
def rtC1 : Runtime RomNoMBC :=
  { memory :=
    { boot_rom := fun _ => 0
      rom := { rom := fun _ => 0 }
      vram := fun _ => 0
      wram := fun i =>
        if i = 0xFFFF - 0xA000 then 0x04
        else if i = 0xFF0F - 0xA000 then 0x04
        else 0
      hwcfg := 0
      inputs := 0xFF }
    cpu := { ra := 0, rf := 0, rb := 0, rc := 0, rd := 0, re := 0, rh := 0
             rl := 0, sp := 0xFFFE, pc := 0x1234, ime := true, debug := false
             halt := false }
    timer := Timer.new }

/-- A halted runtime with no pending interrupt. -/
def rtC1h : Runtime RomNoMBC :=
  { rtC1 with
    cpu := { rtC1.cpu with ime := false, halt := true }
    memory := { rtC1.memory with wram := fun _ => 0 } }

/-- A dummy opcode executor used to instantiate `Runtime.tick`. -/
def execW : Runtime RomNoMBC → Runtime RomNoMBC × Nat := fun r => (r, 1)

/-- Witness for `interrupt_dispatch_spec` at concrete states: both the
dispatch branch (at `rtC1`) and the halt-idle branch (at `rtC1h`). -/
theorem interrupt_dispatch_spec_witness :
    (rtC1.cpu.ime = true ∧
     (Runtime.get romNoMBCOps rtC1 registers.IE
        &&& Runtime.get romNoMBCOps rtC1 registers.IF) &&& 0x1F ≠ 0 ∧
     0xFF82 ≤ rtC1.cpu.sp ∧ rtC1.cpu.sp ≤ 0xFFFE ∧ rtC1.cpu.pc < 0x10000) ∧
    (∃ rt', Runtime.tick_interrupts romNoMBCOps rtC1 = some rt' ∧
      Runtime.tick romNoMBCOps execW rtC1 = execW rt' ∧
      rt'.cpu.ime = false ∧
      rt'.cpu.sp = rtC1.cpu.sp - 2 ∧
      Runtime.get romNoMBCOps rt' (rtC1.cpu.sp - 1) = rtC1.cpu.pc >>> 8 ∧
      Runtime.get romNoMBCOps rt' (rtC1.cpu.sp - 2) = rtC1.cpu.pc &&& 0xFF ∧
      ∃ i, i < 5 ∧
        Nat.testBit (Runtime.get romNoMBCOps rtC1 registers.IE
          &&& Runtime.get romNoMBCOps rtC1 registers.IF) i = true ∧
        (∀ j, j < i →
          Nat.testBit (Runtime.get romNoMBCOps rtC1 registers.IE
            &&& Runtime.get romNoMBCOps rtC1 registers.IF) j = false) ∧
        rt'.cpu.pc = 0x40 + 8 * i ∧
        Nat.testBit (Runtime.get romNoMBCOps rtC1 registers.IF) i = true ∧
        Nat.testBit (Runtime.get romNoMBCOps rt' registers.IF) i = false ∧
        (∀ j, j < 8 → j ≠ i →
          Nat.testBit (Runtime.get romNoMBCOps rt' registers.IF) j
            = Nat.testBit (Runtime.get romNoMBCOps rtC1 registers.IF) j)) ∧
    (rtC1h.cpu.halt = true ∧
     Runtime.get romNoMBCOps rtC1h registers.IE
       &&& Runtime.get romNoMBCOps rtC1h registers.IF = 0) ∧
    Runtime.tick romNoMBCOps execW rtC1h = (rtC1h, 1) :=
  ⟨by decide,
   (interrupt_dispatch_spec romNoMBCOps execW rtC1).1 (by decide),
   ⟨rfl, by decide⟩,
   (interrupt_dispatch_spec romNoMBCOps execW rtC1h).2 ⟨rfl, by decide⟩⟩

/-- A runtime whose only pending interrupt bit is bit 5: IE = IF = 0x20. -/
def rtC1x : Runtime RomNoMBC :=
  { rtC1 with
    memory := { rtC1.memory with wram := fun i =>
      if i = 0xFFFF - 0xA000 then 0x20
      else if i = 0xFF0F - 0xA000 then 0x20
      else 0 } }

/-- **C1 counterexample.** With IME set and `pending = IE & IF = 0x20 ≠ 0`
(only bit 5 set), `tick` falls through to the fetch with IME cleared and PC
pushed, but *no* IF bit is cleared (IF stays 0x20, bit 5 — the lowest set
bit of pending — still set) and PC keeps its old value 0x1234 instead of
being set to any vector: the claim's dispatch description fails for a
nonzero pending whose set bits all lie above bit 4. -/
theorem interrupt_dispatch_high_bits_counterexample :
    (rtC1x.cpu.ime = true ∧
     Runtime.get romNoMBCOps rtC1x registers.IE
       &&& Runtime.get romNoMBCOps rtC1x registers.IF = 0x20) ∧
    (Runtime.tick_interrupts romNoMBCOps rtC1x).isSome = true ∧
    ((Runtime.tick_interrupts romNoMBCOps rtC1x).getD rtC1x).cpu.ime = false ∧
    Runtime.get romNoMBCOps
        ((Runtime.tick_interrupts romNoMBCOps rtC1x).getD rtC1x) registers.IF
      = 0x20 ∧
    Nat.testBit (Runtime.get romNoMBCOps
        ((Runtime.tick_interrupts romNoMBCOps rtC1x).getD rtC1x) registers.IF) 5
      = true ∧
    ((Runtime.tick_interrupts romNoMBCOps rtC1x).getD rtC1x).cpu.pc = 0x1234 := by
  decide

end Gbc

